import Mathlib

set_option maxRecDepth 4000

/-!
Verification of the YARA diversity / rarefaction statistics engine.

Shallow embedding of the numeric analyzers of the repository:

* `src/actions/utils/rarefaction_analyzer.py` (`RarefactionAnalyzer`)
* `src/backend/analysis/qiime_parser.py` (`QIIME2Parser`, `load_qiime2_data`)
* `src/backend/analysis/alpha_diversity.py` (`AlphaDiversityAnalyzer`)
* `src/backend/analysis/beta_diversity.py` (`BetaDiversityAnalyzer`)
* `src/backend/analysis/statistics.py` (`calculate_kruskal_wallis`)

Python floats are modelled by `ℚ` (exact arithmetic); pandas `NaN` cells are
modelled by `Option ℚ` with `none` for `NaN`; where a genuine IEEE
non-finite value can be produced (unguarded division by zero) the result
type `PyFloat` records it explicitly.  External SciPy routines
(`stats.kruskal`, `mannwhitneyu`) are taken as explicit functional
parameters: the embedded code is everything around them.
-/

namespace Yara

/-! ### Rarefaction analyzer: data model

`RarefactionAnalyzer.__init__` keeps a DataFrame whose rows are samples and
whose columns are sequencing depths.  A row is a list of cells aligned with
`depths`; a `none` cell is a pandas `NaN` (sample lacks a value at that
depth). -/

structure RarefactionData where
  samples : List (String × List (Option ℚ))
  depths : List Nat
deriving DecidableEq

def RarefactionData.sample_ids (a : RarefactionData) : List String :=
  a.samples.map Prod.fst

/-- Maximum of a list of rationals (`none` on the empty list).  Used to model
`pandas.Series.max`, which skips `NaN` and is `NaN` when no value remains. -/
def qListMax : List ℚ → Option ℚ
  | [] => none
  | v :: vs =>
    match qListMax vs with
    | none => some v
    | some m => some (max v m)

/-- `sample_data.max()` on a row with possible `NaN` cells: the maximum of the
defined cells, `none` (`NaN`) when every cell is `NaN`. -/
def rowMax (row : List (Option ℚ)) : Option ℚ :=
  qListMax (row.filterMap id)

/-- `RarefactionAnalyzer.get_plateau_depth` (rarefaction_analyzer.py lines
39-62).  Membership test on the index, then `plateau_value = max * threshold`
and the first depth (column order) whose cell compares `>= plateau_value`;
a `NaN` cell (or a `NaN` plateau value, when the whole row is `NaN`) makes the
comparison `False`. -/
def get_plateau_depth (a : RarefactionData) (sample_id : String) (threshold : ℚ) :
    Option Nat :=
  match a.samples.lookup sample_id with
  | none => none
  | some row =>
    match rowMax row with
    | none => none
    | some max_value =>
      ((a.depths.zip row).find? (fun p =>
        match p.2 with
        | some v => decide (max_value * threshold ≤ v)
        | none => false)).map Prod.fst

/-- `RarefactionAnalyzer.calculate_saturation` (lines 64-90).  Unknown sample
or fewer than two cells: `0.0`.  Otherwise with `v1 = values[-1]`,
`v2 = values[-2]`: `final_change = abs(v1 - v2)/v1 if v1 > 0 else 0` and
`saturation = 1.0 - min(final_change, 1.0)`.  When `v1 > 0` but `v2` is `NaN`
every arithmetic step propagates `NaN` (Python `min(nan, 1.0)` is `nan`), so
the embedded result is `none`; when `v1` is `NaN` the guard `v1 > 0` is
`False` and the result is the literal computation on `final_change = 0`. -/
def calculate_saturation (a : RarefactionData) (sample_id : String) : Option ℚ :=
  match a.samples.lookup sample_id with
  | none => some 0
  | some row =>
    if row.length < 2 then some 0
    else
      match row.reverse with
      | c1 :: c2 :: _ =>
        match c1 with
        | some v1 =>
          if 0 < v1 then
            match c2 with
            | some v2 => some (1 - min (|v1 - v2| / v1) 1)
            | none => none
          else some (1 - min 0 1)
        | none => some (1 - min 0 1)
      | _ => some 0

/-- Count of non-`NaN` cells in a column: `self.data[depth].notna().sum()`. -/
def notnaCount (cells : List (Option ℚ)) : Nat :=
  (cells.filterMap id).length

/-- Mean of a list of rationals (`0` on the empty list, which never occurs at
the call sites used in theorems). -/
def listMean (l : List ℚ) : ℚ :=
  l.sum / l.length

/-- `self.data[depth].mean()`: pandas skips `NaN`; the mean of no values is
`NaN` (`none`). -/
def colMean (cells : List (Option ℚ)) : Option ℚ :=
  match cells.filterMap id with
  | [] => none
  | vs => some (listMean vs)

/-- The cells of the column at positional index `j`. -/
def colCells (a : RarefactionData) (j : Nat) : List (Option ℚ) :=
  a.samples.map (fun r => r.2.getD j none)

structure DepthRecommendation where
  recommended_depth : Option Nat
  samples_retained : Nat
  samples_discarded : List String
  reason : String
deriving DecidableEq

/-- `RarefactionAnalyzer.recommend_sampling_depth` (lines 92-145).  For each
depth the code stores `saturations[depth] = self.data[depth].mean()` — the
mean of the raw observed values in that column, despite the name — then keeps
the depth maximizing `score = saturations[depth] * retention_rate` over the
depths with `retention_rate >= min_samples_retained`, with `score >
best_score` strict and `best_score` starting at `0` (ties keep the earlier
depth; a `NaN` column mean makes the comparison `False`).  The final
`if best_depth:` is Python truthiness: `None` and the integer `0` both take
the failure branch.  Numeric interpolation inside the success reason string is
elided; the failure reason is the verbatim source string. -/
def recommend_sampling_depth (a : RarefactionData) (min_samples_retained : ℚ) :
    DepthRecommendation :=
  let n := a.sample_ids.length
  let best := a.depths.enum.foldl
    (fun (acc : ℚ × Option (Nat × Nat)) jd =>
      let cells := colCells a jd.1
      let retention_rate : ℚ := (notnaCount cells : ℚ) / (n : ℚ)
      if min_samples_retained ≤ retention_rate then
        match colMean cells with
        | some m =>
          if acc.1 < m * retention_rate then (m * retention_rate, some jd) else acc
        | none => acc
      else acc)
    ((0 : ℚ), (none : Option (Nat × Nat)))
  match best.2 with
  | some jd =>
    if jd.2 = 0 then
      { recommended_depth := none
        samples_retained := 0
        samples_discarded := []
        reason := "Não foi possível encontrar profundidade que mantenha o mínimo de amostras" }
    else
      { recommended_depth := some jd.2
        samples_retained := notnaCount (colCells a jd.1)
        samples_discarded :=
          (a.samples.filter (fun r => r.2.getD jd.1 none = none)).map Prod.fst
        reason := "Profundidade " ++ toString jd.2 ++
          " oferece melhor balanço entre saturação e retenção de amostras" }
  | none =>
    { recommended_depth := none
      samples_retained := 0
      samples_discarded := []
      reason := "Não foi possível encontrar profundidade que mantenha o mínimo de amostras" }

/-- The saturation formula of spec §4.5 on a list of values in ascending depth
order: fewer than two points is `0`; otherwise `1 - min(|v_last - v_prev| /
v_last, 1)` with the relative change taken as `0` when `v_last = 0`. -/
def spec_saturation (values : List ℚ) : ℚ :=
  match values.reverse with
  | v1 :: v2 :: _ => if v1 = 0 then 1 - min 0 1 else 1 - min (|v1 - v2| / v1) 1
  | _ => 0

/-- The defined values of a row observed up to column index `j` inclusive
(the sample's curve truncated at that depth). -/
def truncRow (row : List (Option ℚ)) (j : Nat) : List ℚ :=
  (row.take (j + 1)).filterMap id

/-- Spec-side depth recommendation, following the words of spec §4.5 for
comparison with `recommend_sampling_depth`: a depth qualifies when `retention
= (#samples with a value at the depth) / (#samples)` is at least the minimum;
among qualifying depths the one maximizing `meanSaturationAtDepth *
retention` is selected, where `meanSaturationAtDepth` averages
`spec_saturation` of each curve truncated at the depth over the samples with
a value there; ties keep the first depth in ascending order. -/
def specRecommendDepth (a : RarefactionData) (minRetained : ℚ) : Option Nat :=
  let n := a.samples.length
  let qualifying := a.depths.enum.filterMap (fun jd =>
    let withVal := a.samples.filter (fun r => (r.2.getD jd.1 none).isSome)
    let retention : ℚ := (withVal.length : ℚ) / (n : ℚ)
    if minRetained ≤ retention then
      let sats := withVal.map (fun r => spec_saturation (truncRow r.2 jd.1))
      some (jd.2, listMean sats * retention)
    else none)
  (qualifying.foldl
    (fun (acc : Option (Nat × ℚ)) ds =>
      match acc with
      | none => some ds
      | some best => if best.2 < ds.2 then some ds else acc)
    none).map Prod.fst

/-! ### Concrete rarefaction inputs used by the theorems -/

/-- Scenario B of spec §8: depths `[1000, 5000, 10000]`, values
`[50, 95, 100]`. -/
def scenarioB : RarefactionData :=
  { samples := [("S", [some 50, some 95, some 100])]
    depths := [1000, 5000, 10000] }

/-- One sample whose raw counts drop after the first depth: the mean-raw-value
score and the mean-saturation score select different depths. -/
def analyzerC1 : RarefactionData :=
  { samples := [("A", [some 100, some 1, some 2])]
    depths := [10, 20, 30] }

/-- Two samples, one lacking the single depth: retention 1/2 below the
requested minimum 1, so no depth qualifies. -/
def analyzerC1fail : RarefactionData :=
  { samples := [("A", [none]), ("B", [some 5])]
    depths := [10] }

/-- A known sample with a single depth point. -/
def analyzerB10 : RarefactionData :=
  { samples := [("S", [some 5])]
    depths := [10] }

/-! ### TaxonomyGrammarParser (`QIIME2Parser._parse_taxonomy_string`,
qiime_parser.py lines 124-161)

The parser works on Python strings; the embedding runs on `List Char` with
helpers mirroring `str.split(';')`, `str.strip()` and `str.split('__', 1)`
exactly (single-character separator split keeps empty segments; the
two-argument split cuts at the first occurrence). -/

/-- Python `s.split(sep)` for a one-character separator: every occurrence
splits, empty segments kept, `''.split(sep) == ['']`. -/
def pySplitChar (sep : Char) (s : List Char) : List (List Char) :=
  s.foldr
    (fun c acc =>
      match acc with
      | cur :: rest => if c = sep then [] :: cur :: rest else (c :: cur) :: rest
      | [] => [[c]])
    [[]]

/-- Python `s.strip()`: whitespace removed from both ends. -/
def pyStrip (s : List Char) : List Char :=
  ((s.dropWhile Char.isWhitespace).reverse.dropWhile Char.isWhitespace).reverse

/-- Python `'__' in part` combined with `part.split('__', 1)`: `none` when the
separator does not occur, otherwise the text before and after its first
occurrence. -/
def splitDunder : List Char → Option (List Char × List Char)
  | [] => none
  | [_] => none
  | a :: b :: rest =>
    if a = '_' ∧ b = '_' then some ([], rest)
    else
      match splitDunder (b :: rest) with
      | some pq => some (a :: pq.1, pq.2)
      | none => none

/-- The `levels` dict of `_parse_taxonomy_string`. -/
def rankLevels : List (String × String) :=
  [("k", "Kingdom"), ("p", "Phylum"), ("c", "Class"), ("o", "Order"),
   ("f", "Family"), ("g", "Genus"), ("s", "Species")]

def rankNames : List String :=
  rankLevels.map Prod.snd

/-- Python dict assignment on an insertion-ordered association list: an
existing key keeps its position and gets the new value, a new key is appended. -/
def dictInsert (d : List (String × String)) (k v : String) : List (String × String) :=
  if d.any (fun p => p.1 = k) then
    d.map (fun p => if p.1 = k then (k, v) else p)
  else d ++ [(k, v)]

/-- One segment of the taxonomy string: strip, require `'__'`, strip the level
code and the taxon, keep only recognized level codes, and replace an empty
taxon by `"Unassigned"` (Python string truthiness). -/
def parseTaxSegment (parsed : List (String × String)) (part : List Char) :
    List (String × String) :=
  let part := pyStrip part
  match splitDunder part with
  | some lcTx =>
    let level_code := pyStrip lcTx.1
    let taxon := pyStrip lcTx.2
    match rankLevels.lookup (String.mk level_code) with
    | some rank => dictInsert parsed rank (if taxon ≠ [] then String.mk taxon else "Unassigned")
    | none => parsed
  | none => parsed

/-- `QIIME2Parser._parse_taxonomy_string`: `pd.isna` input (`none`) yields the
empty dict; otherwise split on `';'` and fold the segments. -/
def parse_taxonomy_string (tax_string : Option String) : List (String × String) :=
  match tax_string with
  | none => []
  | some s => (pySplitChar ';' s.toList).foldl parseTaxSegment []

/-! ### Archive load control flow (`load_qiime2_data`, qiime_parser.py lines
240-283, with `QIIME2Parser.extract_qzv` lines 41-63 and `cleanup` lines
231-235)

The `.qzv` branch performs: `tempfile.mkdtemp` (the scoped area now exists),
`zipfile.extractall`, `find_data_files`, `pd.read_csv` on the first match
when one exists, `parser.cleanup()` (which removes the area), `return df`.
There is no `try`/`finally`: an exception raised by `extractall` or by
`read_csv` propagates and `cleanup` never runs.  The embedding abstracts the
environment into three booleans and returns the call outcome together with
whether the temporary directory still exists afterwards. -/

structure QzvWorld where
  extract_ok : Bool
  tsv_found : Bool
  read_ok : Bool
deriving DecidableEq

inductive LoadOutcome where
  | ok (gotData : Bool)
  | raised
deriving DecidableEq

/-- The `.qzv` branch of `load_qiime2_data`: result is (outcome, does the
temporary extraction directory still exist after the call). -/
def load_qiime2_data_qzv (w : QzvWorld) : LoadOutcome × Bool :=
  if !w.extract_ok then (.raised, true)
  else if w.tsv_found then
    if !w.read_ok then (.raised, true)
    else (.ok true, false)
  else (.ok false, false)

/-! ### Alpha diversity two-group comparison (`AlphaDiversityAnalyzer.
compare_groups`, alpha_diversity.py lines 95-129)

The percent difference `((group2.mean - group1.mean) / group1.mean) * 100` is
evaluated in numpy float arithmetic, which on a zero divisor produces an IEEE
non-finite value instead of raising.  `PyFloat` records exactly that. -/

inductive PyFloat where
  | finite (q : ℚ)
  | inf
  | neginf
  | nan
deriving DecidableEq

/-- IEEE division of finite operands: finite quotient when the divisor is
nonzero, otherwise `±inf` by the sign of the dividend and `nan` for `0/0`. -/
def pyDiv (a b : ℚ) : PyFloat :=
  if b ≠ 0 then .finite (a / b)
  else if 0 < a then .inf
  else if a < 0 then .neginf
  else .nan

/-- IEEE multiplication of a possibly non-finite value by a finite constant. -/
def pyMul (x : PyFloat) (c : ℚ) : PyFloat :=
  match x with
  | .finite q => .finite (q * c)
  | .inf => if 0 < c then .inf else if c < 0 then .neginf else .nan
  | .neginf => if 0 < c then .neginf else if c < 0 then .inf else .nan
  | .nan => .nan

/-- `pandas.Series.unique`: distinct values in order of first appearance. -/
def uniques (l : List String) : List String :=
  l.foldl (fun acc g => if g ∈ acc then acc else acc ++ [g]) []

structure CompareGroupsSuccess where
  groups : List String
  group1_mean : ℚ
  group2_mean : ℚ
  difference_pct : PyFloat
  statistic : ℚ
  p_value : ℚ
  significant : Bool
deriving DecidableEq

inductive CompareGroupsResult where
  | error (msg : String)
  | ok (r : CompareGroupsSuccess)
deriving DecidableEq

/-- The metric values of the rows labelled `g`. -/
def groupData (rows : List (String × ℚ)) (g : String) : List ℚ :=
  (rows.filter (fun r => r.1 = g)).map Prod.snd

/-- `AlphaDiversityAnalyzer.compare_groups` on the (group label, metric value)
rows of the table, with `scipy.stats.mannwhitneyu` as an explicit parameter
returning (statistic, p-value).  Exactly two distinct labels are required;
the percent difference divides by the first group's mean with no guard. -/
def compare_groups (rows : List (String × ℚ))
    (mannwhitneyu : List ℚ → List ℚ → ℚ × ℚ) : CompareGroupsResult :=
  let groups := uniques (rows.map Prod.fst)
  if groups.length ≠ 2 then .error "Comparação suporta apenas 2 grupos"
  else
    let group1_data := groupData rows (groups.getD 0 "")
    let group2_data := groupData rows (groups.getD 1 "")
    let sp := mannwhitneyu group1_data group2_data
    .ok
      { groups := groups
        group1_mean := listMean group1_data
        group2_mean := listMean group2_data
        difference_pct :=
          pyMul (pyDiv (listMean group2_data - listMean group1_data)
            (listMean group1_data)) 100
        statistic := sp.1
        p_value := sp.2
        significant := decide (sp.2 < 1 / 20) }

/-- A table whose first group has mean zero. -/
def tableC3 : List (String × ℚ) :=
  [("A", 0), ("A", 0), ("A", 0), ("B", 1), ("B", 2), ("B", 3)]

/-- A stand-in for `scipy.stats.mannwhitneyu` at the concrete inputs of the
counterexample (its output does not influence `difference_pct`). -/
def mwStub : List ℚ → List ℚ → ℚ × ℚ :=
  fun _ _ => (9, 1 / 10)

/-! ### Kruskal-Wallis (`calculate_kruskal_wallis`, statistics.py lines
17-79)

`scipy.stats.kruskal` is an explicit parameter returning either the
(statistic, p-value) pair or an error message (the source wraps the call in
`try`/`except` and converts an exception into a failure dict). -/

structure KWSuccess where
  statistic : ℚ
  p_value : ℚ
  groups : List String
  metric : String
  significant : Bool
deriving DecidableEq

inductive KWResult where
  | failure (message : String)
  | success (r : KWSuccess)
deriving DecidableEq

/-- The metric values of the rows labelled `g`, with `NaN` cells dropped
(`.dropna()`). -/
def groupValues (df : List (String × Option ℚ)) (g : String) : List ℚ :=
  (df.filter (fun r => r.1 = g)).filterMap Prod.snd

/-- The (label, values) pairs surviving the 5-observation minimum, in group
order of first appearance: the loop filling `group_values`/`valid_groups`. -/
def validPairs (df : List (String × Option ℚ)) : List (String × List ℚ) :=
  (uniques (df.map Prod.fst)).filterMap (fun g =>
    let values := groupValues df g
    if 5 ≤ values.length then some (g, values) else none)

/-- `calculate_kruskal_wallis` on the (group label, metric cell) rows of the
table.  Groups with fewer than 5 non-null observations are discarded; fewer
than 2 surviving groups is the structured failure; otherwise the SciPy call
runs and its outcome is wrapped (the interpretation text of the source is not
modelled). -/
def calculate_kruskal_wallis (df : List (String × Option ℚ)) (metric_col : String)
    (kruskal : List (List ℚ) → Except String (ℚ × ℚ)) : KWResult :=
  let pairs := validPairs df
  if (pairs.map Prod.fst).length < 2 then
    .failure "Grupos insuficientes para análise. Necessário pelo menos 2 grupos com 5+ amostras."
  else
    match kruskal (pairs.map Prod.snd) with
    | .ok sp =>
      .success
        { statistic := sp.1
          p_value := sp.2
          groups := pairs.map Prod.fst
          metric := metric_col
          significant := decide (sp.2 < 1 / 20) }
    | .error e => .failure ("Erro ao executar Kruskal-Wallis: " ++ e)

/-- A table with two groups of five observations each. -/
def dfC8 : List (String × Option ℚ) :=
  [("A", some 1), ("A", some 2), ("A", some 3), ("A", some 4), ("A", some 5),
   ("B", some 6), ("B", some 7), ("B", some 8), ("B", some 9), ("B", some 10)]

/-- A stand-in for `scipy.stats.kruskal` at the concrete input of the
witness. -/
def kwStub : List (List ℚ) → Except String (ℚ × ℚ) :=
  fun _ => .ok (7, 1/100)

/-! ### Beta diversity distance statistics
(`BetaDiversityAnalyzer.get_distance_stats`, beta_diversity.py lines 29-46) -/

/-- `np.triu_indices_from(values, k=1)` selection in row-major order: the
entries strictly above the diagonal. -/
def upperTriangle (m : List (List ℚ)) : List ℚ :=
  m.enum.foldr
    (fun ir acc =>
      (ir.2.enum.filterMap (fun jv => if ir.1 < jv.1 then some jv.2 else none)) ++ acc)
    []

/-- Minimum of a nonempty list (`0` on the empty list, unreachable under the
theorems' hypotheses); models `np.min`. -/
def listMin : List ℚ → ℚ
  | [] => 0
  | v :: vs => vs.foldl min v

/-- Maximum of a nonempty list (`0` on the empty list); models `np.max`. -/
def listMax : List ℚ → ℚ
  | [] => 0
  | v :: vs => vs.foldl max v

/-- `np.median`: sort ascending; middle element for odd length, mean of the
two middle elements for even length. -/
def npMedian (l : List ℚ) : ℚ :=
  let s := List.insertionSort (· ≤ ·) l
  if l.length % 2 = 1 then s.getD (l.length / 2) 0
  else (s.getD (l.length / 2 - 1) 0 + s.getD (l.length / 2) 0) / 2

structure DistanceStats where
  mean : ℚ
  median : ℚ
  std_sq : ℚ
  min : ℚ
  max : ℚ
deriving DecidableEq

/-- `BetaDiversityAnalyzer.get_distance_stats`: descriptive statistics of the
strict upper triangle.  `np.std` is the square root of `std_sq` (population
variance), kept squared so the embedding stays in exact arithmetic. -/
def get_distance_stats (m : List (List ℚ)) : DistanceStats :=
  let distances := upperTriangle m
  { mean := listMean distances
    median := npMedian distances
    std_sq := (distances.map (fun v => (v - listMean distances) ^ 2)).sum / distances.length
    min := listMin distances
    max := listMax distances }

/-- The matrix entry at row `i`, column `j` (out-of-range reads give `0`;
the theorems' hypotheses keep indices in range). -/
def mEntry (m : List (List ℚ)) (i j : Nat) : ℚ :=
  (m.getD i []).getD j 0

/-- Scenario A of spec §8: samples A, B, C with AB = 0.2, AC = 0.5,
BC = 0.6. -/
def matrixA : List (List ℚ) :=
  [[0, 1/5, 1/2], [1/5, 0, 3/5], [1/2, 3/5, 0]]

/-! ## Helper lemmas -/

theorem lookup_eq_none_of_not_mem {β : Type} {l : List (String × β)} {sid : String}
    (h : sid ∉ l.map Prod.fst) : l.lookup sid = none := by
  induction l with
  | nil => rfl
  | cons a t ih =>
    simp only [List.map_cons, List.mem_cons, not_or] at h
    have hne : (sid == a.1) = false := by
      simp [h.1]
    simp [List.lookup, hne, ih h.2]

theorem filterMap_id_map_some (vs : List ℚ) : (vs.map some).filterMap id = vs := by
  induction vs with
  | nil => rfl
  | cons v t ih => simp [List.filterMap_cons, ih]

theorem qListMax_eq_none {vs : List ℚ} (h : qListMax vs = none) : vs = [] := by
  cases vs with
  | nil => rfl
  | cons v t =>
    rw [qListMax] at h
    cases ht : qListMax t with
    | none => rw [ht] at h; exact Option.noConfusion h
    | some m => rw [ht] at h; exact Option.noConfusion h

theorem qListMax_mem {vs : List ℚ} {M : ℚ} (h : qListMax vs = some M) : M ∈ vs := by
  induction vs generalizing M with
  | nil => simp [qListMax] at h
  | cons v t ih =>
    rw [qListMax] at h
    cases ht : qListMax t with
    | none =>
      rw [ht] at h
      simp only [Option.some.injEq] at h
      exact h ▸ List.mem_cons_self v t
    | some m =>
      rw [ht] at h
      simp only [Option.some.injEq] at h
      rcases max_choice v m with hc | hc
      · rw [← h, hc]; exact List.mem_cons_self v t
      · rw [← h, hc]; exact List.mem_cons_of_mem v (ih ht)

theorem le_qListMax {vs : List ℚ} {M : ℚ} (h : qListMax vs = some M) :
    ∀ v ∈ vs, v ≤ M := by
  induction vs generalizing M with
  | nil => simp
  | cons v t ih =>
    rw [qListMax] at h
    cases ht : qListMax t with
    | none =>
      rw [ht] at h
      simp only [Option.some.injEq] at h
      have ht0 : t = [] := qListMax_eq_none ht
      subst ht0
      intro x hx
      rcases List.mem_cons.mp hx with hx | hx
      · subst hx; exact le_of_eq h
      · simp at hx
    | some m =>
      rw [ht] at h
      simp only [Option.some.injEq] at h
      intro x hx
      rcases List.mem_cons.mp hx with hx | hx
      · subst hx; exact h ▸ le_max_left x m
      · exact le_trans (ih ht x hx) (h ▸ le_max_right v m)

theorem qListMax_isSome {vs : List ℚ} (h : vs ≠ []) : ∃ M, qListMax vs = some M := by
  cases vs with
  | nil => exact absurd rfl h
  | cons v t =>
    rw [qListMax]
    cases qListMax t with
    | none => exact ⟨v, rfl⟩
    | some m => exact ⟨max v m, rfl⟩

/-- In a list of pairs with strictly increasing first components, the element
found by `find?` has the least first component among the elements satisfying
the predicate. -/
theorem find?_first_le {p : Nat × ℚ → Bool} {l : List (Nat × ℚ)} {x : Nat × ℚ}
    (hsorted : l.Pairwise (fun a b => a.1 < b.1))
    (hx : l.find? p = some x) :
    ∀ y ∈ l, p y = true → x.1 ≤ y.1 := by
  induction l with
  | nil => simp at hx
  | cons a t ih =>
    rw [List.find?_cons] at hx
    rcases List.pairwise_cons.mp hsorted with ⟨ha, ht⟩
    cases hpa : p a with
    | true =>
      rw [hpa] at hx
      simp only [Option.some.injEq] at hx
      intro y hy _
      rcases List.mem_cons.mp hy with hy | hy
      · exact le_of_eq (by rw [← hx, hy])
      · exact le_of_lt (hx ▸ ha y hy)
    | false =>
      rw [hpa] at hx
      intro y hy hpy
      rcases List.mem_cons.mp hy with hy | hy
      · rw [hy] at hpy; rw [hpy] at hpa; cases hpa
      · exact ih ht hx y hy hpy

/-- Weakening the predicate of a `find?` over a list of pairs with strictly
increasing first components moves the hit to an earlier-or-equal key. -/
theorem find?_mono_le {p q : Nat × ℚ → Bool} {l : List (Nat × ℚ)} {x : Nat × ℚ}
    (hsorted : l.Pairwise (fun a b => a.1 < b.1))
    (himp : ∀ z ∈ l, p z = true → q z = true)
    (hx : l.find? p = some x) :
    ∃ y, l.find? q = some y ∧ y.1 ≤ x.1 := by
  induction l with
  | nil => simp at hx
  | cons a t ih =>
    rcases List.pairwise_cons.mp hsorted with ⟨ha, ht⟩
    rw [List.find?_cons] at hx
    cases hqa : q a with
    | true =>
      refine ⟨a, by rw [List.find?_cons, hqa], ?_⟩
      cases hpa : p a with
      | true =>
        rw [hpa] at hx
        simp only [Option.some.injEq] at hx
        exact le_of_eq (by rw [hx])
      | false =>
        rw [hpa] at hx
        have hxm : x ∈ t := List.mem_of_find?_eq_some hx
        exact le_of_lt (ha x hxm)
    | false =>
      have hpa : p a = false := by
        cases hpa : p a with
        | false => rfl
        | true => rw [himp a (List.mem_cons_self a t) hpa] at hqa; cases hqa
      rw [hpa] at hx
      have himp' : ∀ z ∈ t, p z = true → q z = true :=
        fun z hz => himp z (List.mem_cons_of_mem a hz)
      rcases ih ht himp' hx with ⟨y, hy, hle⟩
      exact ⟨y, by rw [List.find?_cons, hqa]; exact hy, hle⟩

/-! ## Claim theorems -/

/-- Claim C1 (evaluation at the failing input): the source scores each depth
by the mean of the raw observed values in the column times the retention rate
(the variable is named `avg_saturation` but holds `self.data[depth].mean()`),
so on a single sample with values `[100, 1, 2]` at depths `[10, 20, 30]` and
minimum retention 0.8 it recommends depth 10, while the spec's
mean-saturation-times-retention score selects depth 30.  The failure branch
itself behaves as the claim says: no qualifying depth gives a `none`
recommendation with a non-empty reason. -/
theorem claim_C1_eval :
    (recommend_sampling_depth analyzerC1 (4/5)).recommended_depth = some 10 ∧
    specRecommendDepth analyzerC1 (4/5) = some 30 ∧
    (recommend_sampling_depth analyzerC1fail 1).recommended_depth = none ∧
    (recommend_sampling_depth analyzerC1fail 1).reason ≠ "" := by
  refine ⟨?_, ?_, ?_, ?_⟩
  · norm_num [recommend_sampling_depth, analyzerC1, analyzerC1fail,
      RarefactionData.sample_ids, colCells, colMean, notnaCount, listMean,
      List.enum, List.enumFrom, List.foldl, List.filterMap, List.getD, List.get?]
  · norm_num [specRecommendDepth, analyzerC1, spec_saturation, truncRow,
      listMean, List.enum, List.enumFrom, List.filterMap, List.getD,
      List.get?, List.filter, List.take]
  · norm_num [recommend_sampling_depth, analyzerC1, analyzerC1fail,
      RarefactionData.sample_ids, colCells, colMean, notnaCount, listMean,
      List.enum, List.enumFrom, List.foldl, List.filterMap, List.getD, List.get?]
  · norm_num [recommend_sampling_depth, analyzerC1, analyzerC1fail,
      RarefactionData.sample_ids, colCells, colMean, notnaCount, listMean,
      List.enum, List.enumFrom, List.foldl, List.filterMap, List.getD, List.get?]
    decide

/-- Claim C2 counterexample: when the archive extracts and a data file is
found but `pd.read_csv` raises, `load_qiime2_data` propagates the exception
without running `cleanup`, so the temporary extraction directory still exists
after the call — refuting removal on every exit path. -/
theorem claim_C2_counterexample :
    load_qiime2_data_qzv ⟨true, true, false⟩ = (LoadOutcome.raised, true) := by
  decide

/-- Claim C2 (amended): the temporary extraction area is removed exactly on
the normal-return paths; on every exit path that raises (extraction failure
or parse failure of the extracted file) the directory is left behind. -/
theorem claim_C2_amended (w : QzvWorld) :
    ((load_qiime2_data_qzv w).1 ≠ LoadOutcome.raised →
      (load_qiime2_data_qzv w).2 = false) ∧
    ((load_qiime2_data_qzv w).1 = LoadOutcome.raised →
      (load_qiime2_data_qzv w).2 = true) := by
  rcases w with ⟨e, t, r⟩
  cases e <;> cases t <;> cases r <;> exact ⟨fun h => by revert h; decide, fun h => by revert h; decide⟩

/-- Witness for `claim_C2_amended` at a fully successful load. -/
theorem claim_C2_amended_witness :
    (load_qiime2_data_qzv ⟨true, true, true⟩).2 = false :=
  (claim_C2_amended ⟨true, true, true⟩).1 (by decide)

/-- Claim C10: an unknown sample id makes `get_plateau_depth` return `None`
and `calculate_saturation` return `0.0` (no exception), and a known
single-point sample can produce the same pair of answers, so the unknown id
is indistinguishable from a no-plateau, zero-saturation curve. -/
theorem claim_C10_unknown_sample :
    (∀ (a : RarefactionData) (sid : String) (t : ℚ),
      sid ∉ a.samples.map Prod.fst →
      get_plateau_depth a sid t = none ∧ calculate_saturation a sid = some 0) ∧
    get_plateau_depth analyzerB10 "S" 2 = none ∧
    calculate_saturation analyzerB10 "S" = some 0 := by
  refine ⟨fun a sid t h => ?_, ?_, by decide⟩
  case refine_2 =>
    norm_num [get_plateau_depth, analyzerB10, rowMax, qListMax, List.lookup,
      List.find?, List.zip, List.zipWith, List.filterMap]
  have hl : a.samples.lookup sid = none := lookup_eq_none_of_not_mem h
  exact ⟨by rw [get_plateau_depth, hl], by rw [calculate_saturation, hl]⟩

/-- Witness for `claim_C10_unknown_sample` at a concrete unknown id. -/
theorem claim_C10_witness :
    get_plateau_depth analyzerB10 "X" 1 = none ∧
    calculate_saturation analyzerB10 "X" = some 0 :=
  claim_C10_unknown_sample.1 analyzerB10 "X" 1 (by decide)

theorem pairwise_fst_zip {l : List Nat} {l' : List ℚ}
    (h : l.Pairwise (· < ·)) : (l.zip l').Pairwise (fun a b => a.1 < b.1) := by
  induction l generalizing l' with
  | nil => simp
  | cons d t ih =>
    cases l' with
    | nil => simp
    | cons v tv =>
      rcases List.pairwise_cons.mp h with ⟨hd, ht⟩
      rw [List.zip_cons_cons]
      refine List.pairwise_cons.mpr ⟨?_, ih ht⟩
      rintro ⟨q1, q2⟩ hq
      exact hd q1 (List.of_mem_zip hq).1

/-- On a fully defined row, `get_plateau_depth` is the first hit of the
threshold predicate over the (depth, value) pairs. -/
theorem get_plateau_depth_eq_find (a : RarefactionData) (sid : String)
    (vs : List ℚ) (t M : ℚ)
    (hrow : a.samples.lookup sid = some (vs.map some))
    (hM : qListMax vs = some M) :
    get_plateau_depth a sid t =
      ((a.depths.zip vs).find? (fun q => decide (M * t ≤ q.2))).map Prod.fst := by
  have hmax : rowMax (vs.map some) = some M := by
    rw [rowMax, filterMap_id_map_some]; exact hM
  simp only [get_plateau_depth, hrow, hmax, List.zip_map_right, List.find?_map]
  rw [Option.map_map]
  rfl

/-- Claim C4: on a sample whose row is fully defined and whose depth keys are
strictly ascending, `get_plateau_depth` returns `None` exactly when every
value stays below `max * threshold`, and any returned depth carries a value
reaching `max * threshold` and is the least depth doing so; on Scenario B
(depths [1000, 5000, 10000], values [50, 95, 100]) the plateau at threshold
0.95 is 5000. -/
theorem claim_C4_plateau :
    (∀ (a : RarefactionData) (sid : String) (vs : List ℚ) (t M : ℚ),
      a.samples.lookup sid = some (vs.map some) →
      qListMax vs = some M →
      a.depths.Pairwise (· < ·) →
      ((get_plateau_depth a sid t = none ↔
          ∀ p ∈ a.depths.zip vs, p.2 < M * t) ∧
        (∀ d, get_plateau_depth a sid t = some d →
          ∃ v, (d, v) ∈ a.depths.zip vs ∧ M * t ≤ v ∧
            ∀ q ∈ a.depths.zip vs, M * t ≤ q.2 → d ≤ q.1))) ∧
    get_plateau_depth scenarioB "S" (19/20) = some 5000 := by
  constructor
  · intro a sid vs t M hrow hM hsorted
    rw [get_plateau_depth_eq_find a sid vs t M hrow hM]
    constructor
    · rw [Option.map_eq_none']
      rw [List.find?_eq_none]
      constructor
      · intro h p hp
        have := h p hp
        simp only [decide_eq_true_eq] at this
        exact lt_of_not_le this
      · intro h p hp
        simp only [decide_eq_true_eq]
        exact not_le_of_lt (h p hp)
    · intro d hd
      rcases Option.map_eq_some'.mp hd with ⟨x, hx, hxd⟩
      refine ⟨x.2, ?_, ?_, ?_⟩
      · rw [← hxd]; exact List.mem_of_find?_eq_some hx
      · have := List.find?_some hx
        simpa using this
      · intro q hq hqv
        rw [← hxd]
        exact find?_first_le (pairwise_fst_zip hsorted) hx q hq (by simpa using hqv)
  · norm_num [get_plateau_depth, scenarioB, rowMax, qListMax, List.lookup,
      List.find?, List.zip, List.zipWith, List.filterMap]

/-- Witness for `claim_C4_plateau` on Scenario B. -/
theorem claim_C4_witness :
    get_plateau_depth scenarioB "S" (19/20) = none ↔
      ∀ p ∈ scenarioB.depths.zip [(50:ℚ), 95, 100], p.2 < 100 * (19/20) :=
  ((claim_C4_plateau.1 scenarioB "S" [50, 95, 100] (19/20) 100
    (by decide) (by decide) (by decide))).1

/-- Claim C5: for a fully defined row with nonnegative values (the data-model
invariant for observed feature counts) and strictly ascending depth keys,
raising the threshold never decreases the plateau depth: whenever the higher
threshold still finds a plateau, the lower threshold finds one at a
less-or-equal depth (and when the lower threshold finds none, neither does
the higher one, `None` acting as larger than every depth). -/
theorem claim_C5_monotone (a : RarefactionData) (sid : String) (vs : List ℚ)
    (t1 t2 : ℚ) (d2 : Nat)
    (hrow : a.samples.lookup sid = some (vs.map some))
    (hpos : ∀ v ∈ vs, 0 ≤ v)
    (hsorted : a.depths.Pairwise (· < ·))
    (h12 : t1 ≤ t2)
    (h2 : get_plateau_depth a sid t2 = some d2) :
    ∃ d1, get_plateau_depth a sid t1 = some d1 ∧ d1 ≤ d2 := by
  cases hM : qListMax vs with
  | none =>
    have hnil : vs = [] := qListMax_eq_none hM
    subst hnil
    simp only [get_plateau_depth, hrow, List.map_nil, rowMax, List.filterMap_nil,
      qListMax] at h2
    exact Option.noConfusion h2
  | some M =>
    have hM0 : 0 ≤ M := hpos M (qListMax_mem hM)
    have hmul : M * t1 ≤ M * t2 := mul_le_mul_of_nonneg_left h12 hM0
    rw [get_plateau_depth_eq_find a sid vs t2 M hrow hM] at h2
    rw [get_plateau_depth_eq_find a sid vs t1 M hrow hM]
    rcases Option.map_eq_some'.mp h2 with ⟨x, hx, hxd⟩
    have himp : ∀ z ∈ a.depths.zip vs,
        (fun q => decide (M * t2 ≤ q.2)) z = true →
        (fun q => decide (M * t1 ≤ q.2)) z = true := by
      intro z _ hz
      simp only [decide_eq_true_eq] at hz ⊢
      exact le_trans hmul hz
    rcases find?_mono_le (pairwise_fst_zip hsorted) himp hx with ⟨y, hy, hyx⟩
    exact ⟨y.1, by rw [hy]; rfl, hxd ▸ hyx⟩

/-- Witness for `claim_C5_monotone`: on Scenario B thresholds 0.5 and 0.95. -/
theorem claim_C5_witness :
    ∃ d1, get_plateau_depth scenarioB "S" (1/2) = some d1 ∧ d1 ≤ 5000 :=
  claim_C5_monotone scenarioB "S" [50, 95, 100] (1/2) (19/20) 5000
    (by decide) (by decide) (by decide) (by norm_num)
    (by norm_num [get_plateau_depth, scenarioB, rowMax, qListMax, List.lookup,
      List.find?, List.zip, List.zipWith, List.filterMap])

/-- Claim C6: on a sample whose row is fully defined with nonnegative values,
`calculate_saturation` returns exactly the spec formula
`1 - min(|v_last - v_prev| / v_last, 1)` on the final two values (relative
change `0` when `v_last = 0`), which is `0` for rows with fewer than two
points and always lies in `[0, 1]`. -/
theorem claim_C6_saturation (a : RarefactionData) (sid : String) (vs : List ℚ)
    (hrow : a.samples.lookup sid = some (vs.map some))
    (hpos : ∀ v ∈ vs, 0 ≤ v) :
    calculate_saturation a sid = some (spec_saturation vs) ∧
    0 ≤ spec_saturation vs ∧ spec_saturation vs ≤ 1 ∧
    (vs.length < 2 → spec_saturation vs = 0) := by
  have hlenrow : (vs.map some).length = vs.length := List.length_map vs some
  by_cases hlen : vs.length < 2
  · have hspec : spec_saturation vs = 0 := by
      rw [spec_saturation]
      rcases vs with _ | ⟨v, _ | ⟨w, rest⟩⟩
      · rfl
      · rfl
      · simp at hlen; omega
    refine ⟨?_, by rw [hspec], by rw [hspec]; norm_num, fun _ => hspec⟩
    rw [calculate_saturation, hrow, hspec]
    simp only [hlenrow, if_pos hlen]
  · push_neg at hlen
    rcases hrev : vs.reverse with _ | ⟨v1, _ | ⟨v2, rest⟩⟩
    · have h0 : vs = [] := by simpa using congrArg List.reverse hrev
      rw [h0] at hlen; simp at hlen
    · have h0 : vs = [v1] := by simpa using congrArg List.reverse hrev
      rw [h0] at hlen; simp at hlen
    · have hv1 : v1 ∈ vs := by
        have : v1 ∈ vs.reverse := by rw [hrev]; exact List.mem_cons_self _ _
        exact List.mem_reverse.mp this
      have hrevrow : (vs.map some).reverse = some v1 :: some v2 :: rest.map some := by
        rw [← List.map_reverse, hrev]
        rfl
      have hcode : calculate_saturation a sid =
          some (if 0 < v1 then 1 - min (|v1 - v2| / v1) 1 else 1 - min 0 1) := by
        rw [calculate_saturation, hrow]
        simp only [hlenrow, if_neg (by omega : ¬ vs.length < 2), hrevrow]
        by_cases h1 : 0 < v1
        · simp only [if_pos h1]
        · simp only [if_neg h1]
      have hspec : spec_saturation vs =
          if v1 = 0 then 1 - min 0 1 else 1 - min (|v1 - v2| / v1) 1 := by
        rw [spec_saturation, hrev]
      by_cases h1 : 0 < v1
      · have hne : v1 ≠ 0 := ne_of_gt h1
        have hc0 : 0 ≤ |v1 - v2| / v1 := div_nonneg (abs_nonneg _) (le_of_lt h1)
        rw [hcode, hspec, if_pos h1, if_neg hne]
        refine ⟨rfl, ?_, ?_, fun hl => absurd hl (by omega)⟩
        · have : min (|v1 - v2| / v1) 1 ≤ 1 := min_le_right _ _
          linarith
        · have : 0 ≤ min (|v1 - v2| / v1) 1 := le_min hc0 (by norm_num)
          linarith
      · have hz : v1 = 0 := le_antisymm (not_lt.mp h1) (hpos v1 hv1)
        rw [hcode, hspec, if_neg h1, if_pos hz]
        refine ⟨rfl, by norm_num, by norm_num, fun hl => absurd hl (by omega)⟩

/-- Witness for `claim_C6_saturation` on Scenario B. -/
theorem claim_C6_witness :
    calculate_saturation scenarioB "S" = some (spec_saturation [50, 95, 100]) ∧
    0 ≤ spec_saturation [(50:ℚ), 95, 100] ∧
    spec_saturation [(50:ℚ), 95, 100] ≤ 1 ∧
    (([(50:ℚ), 95, 100] : List ℚ).length < 2 → spec_saturation [(50:ℚ), 95, 100] = 0) :=
  claim_C6_saturation scenarioB "S" [50, 95, 100]
    (by decide) (by decide)

theorem mem_of_lookup_some {l : List (String × String)} {k v : String}
    (h : l.lookup k = some v) : (k, v) ∈ l := by
  induction l with
  | nil => exact Option.noConfusion h
  | cons a t ih =>
    rw [List.lookup] at h
    cases hk : (k == a.1) with
    | true =>
      rw [hk] at h
      simp only [Option.some.injEq] at h
      have hk1 : k = a.1 := beq_iff_eq.mp hk
      have hkv : (k, v) = a := by rw [hk1, ← h]
      rw [hkv]
      exact List.mem_cons_self a t
    | false =>
      rw [hk] at h
      exact List.mem_cons_of_mem a (ih h)

theorem mem_dictInsert {d : List (String × String)} {k v : String}
    {p : String × String} (h : p ∈ dictInsert d k v) : p ∈ d ∨ p = (k, v) := by
  unfold dictInsert at h
  by_cases hc : d.any (fun q => decide (q.1 = k)) = true
  · rw [if_pos hc] at h
    rcases List.mem_map.mp h with ⟨q, hq, hpq⟩
    by_cases hqk : q.1 = k
    · right; rw [← hpq, if_pos hqk]
    · left; rw [← hpq, if_neg hqk]; exact hq
  · rw [if_neg hc] at h
    rcases List.mem_append.mp h with h | h
    · left; exact h
    · right; simpa using h

theorem string_mk_cons_ne_empty (c : Char) (cs : List Char) :
    String.mk (c :: cs) ≠ "" := by
  intro h
  have hl := congrArg String.length h
  simp [String.length] at hl

theorem parseTaxSegment_good {parsed : List (String × String)} {part : List Char}
    (hinit : ∀ p ∈ parsed, p.1 ∈ rankNames ∧ p.2 ≠ "") :
    ∀ p ∈ parseTaxSegment parsed part, p.1 ∈ rankNames ∧ p.2 ≠ "" := by
  intro p hp
  simp only [parseTaxSegment] at hp
  cases hsd : splitDunder (pyStrip part) with
  | none =>
    simp only [hsd] at hp
    exact hinit p hp
  | some lcTx =>
    simp only [hsd] at hp
    cases hlk : rankLevels.lookup (String.mk (pyStrip lcTx.1)) with
    | none =>
      simp only [hlk] at hp
      exact hinit p hp
    | some rank =>
      simp only [hlk] at hp
      rcases mem_dictInsert hp with hmem | heq
      · exact hinit p hmem
      · subst heq
        constructor
        · have hpair := mem_of_lookup_some hlk
          exact List.mem_map.mpr ⟨_, hpair, rfl⟩
        · by_cases ht : pyStrip lcTx.2 ≠ []
          · rw [if_pos ht]
            cases hc : pyStrip lcTx.2 with
            | nil => exact absurd hc ht
            | cons c cs => exact string_mk_cons_ne_empty c cs
          · rw [if_neg ht]
            exact (by decide : ("Unassigned" : String) ≠ "")

theorem foldl_parseTaxSegment_good (parts : List (List Char))
    (init : List (String × String))
    (hinit : ∀ p ∈ init, p.1 ∈ rankNames ∧ p.2 ≠ "") :
    ∀ p ∈ parts.foldl parseTaxSegment init, p.1 ∈ rankNames ∧ p.2 ≠ "" := by
  induction parts generalizing init with
  | nil => exact hinit
  | cons a t ih => exact ih _ (parseTaxSegment_good hinit)

/-- Claim C7: the taxonomy grammar is total by construction; every pair it
ever emits maps one of the seven fixed ranks to a non-empty name (an empty
taxon becomes the literal `"Unassigned"`, unrecognized level codes and
separator-free segments are skipped); null-like and empty inputs give the
empty mapping; and the Scenario C string parses to the expected seven-rank
mapping. -/
theorem claim_C7_taxonomy :
    (∀ (s : String) (p : String × String), p ∈ parse_taxonomy_string (some s) →
      p.1 ∈ rankNames ∧ p.2 ≠ "") ∧
    parse_taxonomy_string none = [] ∧
    parse_taxonomy_string (some "") = [] ∧
    parse_taxonomy_string
        (some "k__Bacteria; p__Firmicutes; c__; o__; f__Lachnospiraceae; g__; s__") =
      [("Kingdom", "Bacteria"), ("Phylum", "Firmicutes"), ("Class", "Unassigned"),
       ("Order", "Unassigned"), ("Family", "Lachnospiraceae"),
       ("Genus", "Unassigned"), ("Species", "Unassigned")] := by
  refine ⟨?_, rfl, by decide, by decide⟩
  intro s p hp
  exact foldl_parseTaxSegment_good _ [] (by simp) p hp

/-- Witness for `claim_C7_taxonomy` on a concrete segment. -/
theorem claim_C7_witness :
    ("Kingdom", "Bacteria").1 ∈ rankNames ∧ ("Kingdom", "Bacteria").2 ≠ "" :=
  claim_C7_taxonomy.1 "k__Bacteria" ("Kingdom", "Bacteria") (by decide)

/-- Claim C3 counterexample: on the two-group table whose first group's
metric values are all `0`, `compare_groups` returns a result whose
`difference_pct` is the propagated IEEE infinity of the unguarded division by
the zero baseline mean — the numeric fault value itself, with no
undefined/null marker or explanatory flag in the result. -/
theorem claim_C3_counterexample :
    compare_groups tableC3 mwStub =
      CompareGroupsResult.ok
        { groups := ["A", "B"], group1_mean := 0, group2_mean := 2,
          difference_pct := PyFloat.inf, statistic := 9, p_value := 1/10,
          significant := false } := by
  have hu : uniques (tableC3.map Prod.fst) = ["A", "B"] := by decide
  have hg1 : groupData tableC3 "A" = [0, 0, 0] := by decide
  have hg2 : groupData tableC3 "B" = [1, 2, 3] := by decide
  have hm1 : listMean [(0:ℚ), 0, 0] = 0 := by norm_num [listMean]
  have hm2 : listMean [(1:ℚ), 2, 3] = 2 := by norm_num [listMean]
  simp only [compare_groups, hu, List.getD_cons_zero, List.getD_cons_succ,
    hg1, hg2, hm1, hm2, mwStub]
  norm_num [pyDiv, pyMul, decide_eq_false_iff_not]

/-- Claim C3 (amended): with exactly two groups and a zero first-group mean,
`compare_groups` does not raise — it returns a populated result — but the
percent difference is the IEEE non-finite value of the unguarded division
(`+inf`, `-inf` or `nan` by the sign of the second group's mean), with no
explanatory flag. -/
theorem claim_C3_amended (rows : List (String × ℚ))
    (mannwhitneyu : List ℚ → List ℚ → ℚ × ℚ)
    (h2 : (uniques (rows.map Prod.fst)).length = 2)
    (hm1 : listMean (groupData rows ((uniques (rows.map Prod.fst)).getD 0 "")) = 0) :
    ∃ r, compare_groups rows mannwhitneyu = CompareGroupsResult.ok r ∧
      r.group1_mean = 0 ∧
      r.difference_pct =
        (if 0 < r.group2_mean then PyFloat.inf
         else if r.group2_mean < 0 then PyFloat.neginf else PyFloat.nan) := by
  simp only [compare_groups]
  rw [if_neg (not_not_intro h2)]
  refine ⟨_, rfl, hm1, ?_⟩
  simp only [hm1, sub_zero]
  set m2 := listMean (groupData rows ((uniques (rows.map Prod.fst)).getD 1 "")) with hm2
  rcases lt_trichotomy 0 m2 with hlt | heq | hgt
  · rw [if_pos hlt]
    simp only [pyDiv, pyMul]
    rw [if_neg (by simp), if_pos hlt]
    norm_num
  · rw [if_neg (by rw [← heq]; exact lt_irrefl 0), if_neg (by rw [← heq]; exact lt_irrefl 0)]
    simp only [pyDiv, pyMul]
    rw [if_neg (by simp), if_neg (by rw [← heq]; exact lt_irrefl 0),
      if_neg (by rw [← heq]; exact lt_irrefl 0)]
  · rw [if_neg (not_lt_of_lt hgt), if_pos hgt]
    simp only [pyDiv, pyMul]
    rw [if_neg (by simp), if_neg (not_lt_of_lt hgt), if_pos hgt]
    norm_num

/-- Witness for `claim_C3_amended` on the concrete zero-baseline table. -/
theorem claim_C3_witness :
    ∃ r, compare_groups tableC3 mwStub = CompareGroupsResult.ok r ∧
      r.group1_mean = 0 ∧
      r.difference_pct =
        (if 0 < r.group2_mean then PyFloat.inf
         else if r.group2_mean < 0 then PyFloat.neginf else PyFloat.nan) :=
  claim_C3_amended tableC3 mwStub (by decide)
    (by
      simp only [show uniques (tableC3.map Prod.fst) = ["A", "B"] from by decide,
        List.getD_cons_zero,
        show groupData tableC3 "A" = [0, 0, 0] from by decide]
      norm_num [listMean])

/-- Claim C8: `calculate_kruskal_wallis` discards groups with fewer than 5
non-null observations (the surviving group names are exactly the distinct
labels with at least 5 such observations), returns the structured failure
exactly when fewer than 2 groups survive, and otherwise — when the SciPy call
returns normally — returns the success record carrying the statistic, the
p-value, the surviving group names and `significant = (p < 0.05)`. -/
theorem claim_C8_kruskal (df : List (String × Option ℚ)) (metric_col : String)
    (kruskal : List (List ℚ) → Except String (ℚ × ℚ)) (s p : ℚ)
    (hk : kruskal ((validPairs df).map Prod.snd) = Except.ok (s, p)) :
    (∀ g, g ∈ (validPairs df).map Prod.fst ↔
      g ∈ uniques (df.map Prod.fst) ∧ 5 ≤ (groupValues df g).length) ∧
    (((validPairs df).map Prod.fst).length < 2 ↔
      ∃ msg, calculate_kruskal_wallis df metric_col kruskal = KWResult.failure msg) ∧
    (2 ≤ ((validPairs df).map Prod.fst).length →
      calculate_kruskal_wallis df metric_col kruskal =
        KWResult.success
          { statistic := s, p_value := p,
            groups := (validPairs df).map Prod.fst, metric := metric_col,
            significant := decide (p < 1/20) }) := by
  refine ⟨?_, ?_, ?_⟩
  · intro g
    constructor
    · intro hg
      rcases List.mem_map.mp hg with ⟨pr, hpr, hfst⟩
      rcases List.mem_filterMap.mp hpr with ⟨g0, hg0, hite⟩
      by_cases hlen : 5 ≤ (groupValues df g0).length
      · rw [if_pos hlen] at hite
        simp only [Option.some.injEq] at hite
        rw [← hfst, ← hite]
        exact ⟨hg0, hlen⟩
      · rw [if_neg hlen] at hite
        exact Option.noConfusion hite
    · rintro ⟨hg, hlen⟩
      refine List.mem_map.mpr ⟨(g, groupValues df g), ?_, rfl⟩
      exact List.mem_filterMap.mpr ⟨g, hg, by rw [if_pos hlen]⟩
  · constructor
    · intro hlt
      simp only [calculate_kruskal_wallis]
      rw [if_pos hlt]
      exact ⟨_, rfl⟩
    · rintro ⟨msg, hmsg⟩
      by_contra hge
      push_neg at hge
      simp only [calculate_kruskal_wallis] at hmsg
      rw [if_neg (not_lt.mpr hge), hk] at hmsg
      exact KWResult.noConfusion hmsg
  · intro hge
    simp only [calculate_kruskal_wallis]
    rw [if_neg (not_lt.mpr hge), hk]

/-- Witness for `claim_C8_kruskal` on the concrete two-group table. -/
theorem claim_C8_witness :
    calculate_kruskal_wallis dfC8 "shannon" kwStub =
      KWResult.success
        { statistic := 7, p_value := 1/100,
          groups := (validPairs dfC8).map Prod.fst, metric := "shannon",
          significant := decide ((1:ℚ)/100 < 1/20) } :=
  (claim_C8_kruskal dfC8 "shannon" kwStub 7 (1/100) rfl).2.2 (by decide)

theorem foldl_min_le_init (l : List ℚ) (a : ℚ) : l.foldl min a ≤ a := by
  induction l generalizing a with
  | nil => exact le_refl a
  | cons b t ih => exact le_trans (ih (min a b)) (min_le_left a b)

theorem foldl_min_le_mem (l : List ℚ) (a : ℚ) : ∀ x ∈ l, l.foldl min a ≤ x := by
  induction l generalizing a with
  | nil => simp
  | cons b t ih =>
    intro x hx
    rcases List.mem_cons.mp hx with hx | hx
    · subst hx
      exact le_trans (foldl_min_le_init t (min a x)) (min_le_right a x)
    · exact ih (min a b) x hx

theorem listMin_le (l : List ℚ) : ∀ x ∈ l, listMin l ≤ x := by
  cases l with
  | nil => simp
  | cons v t =>
    intro x hx
    rcases List.mem_cons.mp hx with hx | hx
    · subst hx
      exact foldl_min_le_init t x
    · exact foldl_min_le_mem t v x hx

theorem le_foldl_max_init (l : List ℚ) (a : ℚ) : a ≤ l.foldl max a := by
  induction l generalizing a with
  | nil => exact le_refl a
  | cons b t ih => exact le_trans (le_max_left a b) (ih (max a b))

theorem mem_le_foldl_max (l : List ℚ) (a : ℚ) : ∀ x ∈ l, x ≤ l.foldl max a := by
  induction l generalizing a with
  | nil => simp
  | cons b t ih =>
    intro x hx
    rcases List.mem_cons.mp hx with hx | hx
    · subst hx
      exact le_trans (le_max_right a x) (le_foldl_max_init t (max a x))
    · exact ih (max a b) x hx

theorem le_listMax (l : List ℚ) : ∀ x ∈ l, x ≤ listMax l := by
  cases l with
  | nil => simp
  | cons v t =>
    intro x hx
    rcases List.mem_cons.mp hx with hx | hx
    · subst hx
      exact le_foldl_max_init t x
    · exact mem_le_foldl_max t v x hx

theorem sum_le_length_mul_max (l : List ℚ) (B : ℚ) (h : ∀ x ∈ l, x ≤ B) :
    l.sum ≤ l.length * B := by
  induction l with
  | nil => simp
  | cons v t ih =>
    simp only [List.sum_cons, List.length_cons]
    have h1 : v ≤ B := h v (List.mem_cons_self v t)
    have h2 : t.sum ≤ t.length * B := ih (fun x hx => h x (List.mem_cons_of_mem v hx))
    push_cast
    linarith

theorem length_mul_min_le_sum (l : List ℚ) (b : ℚ) (h : ∀ x ∈ l, b ≤ x) :
    l.length * b ≤ l.sum := by
  induction l with
  | nil => simp
  | cons v t ih =>
    simp only [List.sum_cons, List.length_cons]
    have h1 : b ≤ v := h v (List.mem_cons_self v t)
    have h2 : t.length * b ≤ t.sum := ih (fun x hx => h x (List.mem_cons_of_mem v hx))
    push_cast
    linarith

theorem listMean_bounds (l : List ℚ) (hne : l ≠ []) :
    listMin l ≤ listMean l ∧ listMean l ≤ listMax l := by
  have hlen : 0 < (l.length : ℚ) := by
    have := List.length_pos.mpr hne
    exact_mod_cast this
  constructor
  · rw [listMean, le_div_iff₀ hlen]
    calc listMin l * l.length = l.length * listMin l := mul_comm _ _
      _ ≤ l.sum := length_mul_min_le_sum l (listMin l) (listMin_le l)
  · rw [listMean, div_le_iff₀ hlen]
    calc l.sum ≤ l.length * listMax l := sum_le_length_mul_max l (listMax l) (le_listMax l)
      _ = listMax l * l.length := mul_comm _ _

theorem getD_mem_of_lt {l : List ℚ} {i : Nat} (h : i < l.length) (d : ℚ) :
    l.getD i d ∈ l := by
  rw [List.getD_eq_getElem l d h]
  exact List.getElem_mem h

theorem npMedian_bounds (l : List ℚ) (hne : l ≠ []) :
    listMin l ≤ npMedian l ∧ npMedian l ≤ listMax l := by
  have hlen0 : 0 < l.length := List.length_pos.mpr hne
  have hperm : (List.insertionSort (· ≤ ·) l).Perm l := List.perm_insertionSort _ l
  have hlen : (List.insertionSort (· ≤ ·) l).length = l.length := hperm.length_eq
  have hmem : ∀ i, i < l.length → (List.insertionSort (· ≤ ·) l).getD i 0 ∈ l := by
    intro i hi
    have hi' : i < (List.insertionSort (· ≤ ·) l).length := by rw [hlen]; exact hi
    exact hperm.mem_iff.mp (getD_mem_of_lt hi' 0)
  simp only [npMedian]
  by_cases hpar : l.length % 2 = 1
  · rw [if_pos hpar]
    have hi : l.length / 2 < l.length := Nat.div_lt_self hlen0 (by norm_num)
    have hm := hmem _ hi
    exact ⟨listMin_le l _ hm, le_listMax l _ hm⟩
  · rw [if_neg hpar]
    have h2 : 2 ≤ l.length := by omega
    have hi1 : l.length / 2 - 1 < l.length := by omega
    have hi2 : l.length / 2 < l.length := Nat.div_lt_self hlen0 (by norm_num)
    have hm1 := hmem _ hi1
    have hm2 := hmem _ hi2
    constructor
    · have b1 := listMin_le l _ hm1
      have b2 := listMin_le l _ hm2
      linarith
    · have b1 := le_listMax l _ hm1
      have b2 := le_listMax l _ hm2
      linarith

theorem upperTriangle_ne_nil (a b : ℚ) (t : List ℚ) (rest : List (List ℚ)) :
    upperTriangle ((a :: b :: t) :: rest) ≠ [] := by
  have h1 : upperTriangle ((a :: b :: t) :: rest) =
      ((a :: b :: t).enum.filterMap
        (fun jv => if 0 < jv.1 then some jv.2 else none)) ++
        ((rest.enumFrom 1).foldr
          (fun ir acc =>
            (ir.2.enum.filterMap
              (fun jv => if ir.1 < jv.1 then some jv.2 else none)) ++ acc)
          []) := rfl
  rw [h1]
  have h2 : (a :: b :: t).enum.filterMap
      (fun jv => if 0 < jv.1 then some jv.2 else none) =
      b :: (t.enumFrom 2).filterMap (fun jv => if 0 < jv.1 then some jv.2 else none) := by
    simp [List.enum, List.enumFrom, List.filterMap_cons]
  rw [h2]
  simp

/-- Claim C9: on every square matrix with at least two samples (symmetric
with zero diagonal, as the data model demands), `get_distance_stats` takes
its min and max over exactly the strict upper triangle, and its mean, median,
min and max all lie within `[min(upper triangle), max(upper triangle)]`;
on Scenario A (AB = 0.2, AC = 0.5, BC = 0.6) the stats are mean 13/30
(≈ 0.433), median 0.5, min 0.2, max 0.6 (and squared std 13/450). -/
theorem claim_C9_distance_stats :
    (∀ (m : List (List ℚ)) (n : Nat), 2 ≤ n → m.length = n →
      (∀ row ∈ m, row.length = n) →
      (∀ i j, i < n → j < n → mEntry m i j = mEntry m j i) →
      (∀ i, i < n → mEntry m i i = 0) →
      (get_distance_stats m).min = listMin (upperTriangle m) ∧
      (get_distance_stats m).max = listMax (upperTriangle m) ∧
      listMin (upperTriangle m) ≤ (get_distance_stats m).mean ∧
      (get_distance_stats m).mean ≤ listMax (upperTriangle m) ∧
      listMin (upperTriangle m) ≤ (get_distance_stats m).median ∧
      (get_distance_stats m).median ≤ listMax (upperTriangle m)) ∧
    get_distance_stats matrixA =
      { mean := 13/30, median := 1/2, std_sq := 13/450, min := 1/5, max := 3/5 } := by
  constructor
  · intro m n hn hrows hcols hsymm hdiag
    have hne : upperTriangle m ≠ [] := by
      rcases m with _ | ⟨r0, rest⟩
      · rw [List.length_nil] at hrows; omega
      · have hr0 : r0.length = n := hcols r0 (List.mem_cons_self r0 rest)
        rcases r0 with _ | ⟨a, _ | ⟨b, t⟩⟩
        · rw [List.length_nil] at hr0; omega
        · rw [List.length_singleton] at hr0; omega
        · exact upperTriangle_ne_nil a b t rest
    refine ⟨rfl, rfl, ?_, ?_, ?_, ?_⟩
    · exact (listMean_bounds _ hne).1
    · exact (listMean_bounds _ hne).2
    · exact (npMedian_bounds _ hne).1
    · exact (npMedian_bounds _ hne).2
  · have hu : upperTriangle matrixA = [1/5, 1/2, 3/5] := by
      norm_num [upperTriangle, matrixA, List.enum, List.enumFrom, List.filterMap_cons]
    have hsort : List.insertionSort (· ≤ ·) [(1:ℚ)/5, 1/2, 3/5] = [1/5, 1/2, 3/5] := by
      norm_num [List.insertionSort, List.orderedInsert]
    simp only [get_distance_stats, hu]
    norm_num [listMean, npMedian, listMin, listMax, hsort, List.getD]

/-- Witness for `claim_C9_distance_stats` on the Scenario A matrix. -/
theorem claim_C9_witness :
    (get_distance_stats matrixA).min = listMin (upperTriangle matrixA) ∧
    (get_distance_stats matrixA).max = listMax (upperTriangle matrixA) ∧
    listMin (upperTriangle matrixA) ≤ (get_distance_stats matrixA).mean ∧
    (get_distance_stats matrixA).mean ≤ listMax (upperTriangle matrixA) ∧
    listMin (upperTriangle matrixA) ≤ (get_distance_stats matrixA).median ∧
    (get_distance_stats matrixA).median ≤ listMax (upperTriangle matrixA) :=
  claim_C9_distance_stats.1 matrixA 3 (by norm_num) (by norm_num [matrixA])
    (by
      intro row hrow
      fin_cases hrow <;> norm_num [matrixA])
    (by
      intro i j hi hj
      interval_cases i <;> interval_cases j <;> norm_num [mEntry, matrixA, List.getD])
    (by
      intro i hi
      interval_cases i <;> norm_num [mEntry, matrixA, List.getD])

end Yara
